import Mathlib

/-!
Verification of the `helpers` package of the Omni repository: a shallow
embedding of the controller helper functions ( UpdateInputsAnnotation /
UpdateInputsVersions, CopyUserLabels / ClearUserLabels, HandleInput,
GetTalosClient, SetPatchesCompress / getCompressed / IsEmptyPatch) together
with theorems about their behaviour.

Resources are modelled as records of their metadata fields (id, type,
version, lifecycle phase, labels, annotations, finalizers); label and
annotation maps are association lists with Go-map update semantics.
Effectful collaborators (the COSI reader/writer, the Talos client factory
and the compression codec) are modelled as explicit environments recording
the outcome of each external call.
-/

/-- Lifecycle phase of a resource: `Running` or `TearingDown`. -/
inductive Phase where
  | running
  | tearingDown
deriving DecidableEq, Repr

/-- Lookup in a string-keyed association map (first match). -/
def kvGet (m : List (String × String)) (k : String) : Option String :=
  match m with
  | [] => none
  | (k1, v1) :: rest => if k1 = k then some v1 else kvGet rest k

/-- Update-or-append in a string-keyed association map (Go map `Set`). -/
def kvSet (m : List (String × String)) (k v : String) : List (String × String) :=
  match m with
  | [] => [(k, v)]
  | (k1, v1) :: rest => if k1 = k then (k, v) :: rest else (k1, v1) :: kvSet rest k v

/-- A COSI resource, flattened to the metadata fields the helpers read:
identity, type, version, phase, labels, annotations and finalizers. -/
structure Resource where
  id : String
  rtype : String
  version : String
  phase : Phase
  labels : List (String × String)
  annotations : List (String × String)
  finalizers : List String
deriving DecidableEq, Repr

/-- Errors surfaced by the resource store: the distinguished not-found error
or any other error carrying its message. -/
inductive Err where
  | notFound
  | other (msg : String)
deriving DecidableEq, Repr

/-! ## HandleInput -/

/-- Optional arguments of HandleInput (source: `HandleInputOptions`). -/
structure HandleInputOptions where
  id : String
deriving DecidableEq, Repr

/-- Source: `WithID` maps the resource using another id. -/
def WithID (id : String) : HandleInputOptions → HandleInputOptions :=
  fun hio => { hio with id := id }

/-- The id HandleInput resolves: option functions folded over the default
options, which use the main (owner) resource's id. -/
def resolveHandleInputId (main : Resource) (opts : List (HandleInputOptions → HandleInputOptions)) : String :=
  (opts.foldl (fun acc o => o acc) ({ id := main.id } : HandleInputOptions)).id

/-- Environment of one HandleInput call: the outcome of
`safe.ReaderGetByID` for each id, and the outcomes the reader-writer would
give to `RemoveFinalizer` and `AddFinalizer` (`none` = success). -/
structure RWEnv where
  get : String → Except Err Resource
  removeFinalizerErr : Option Err
  addFinalizerErr : Option Err

/-- Result of one HandleInput call: the returned resource (`none` is the
zero value), the returned error, and ghost flags recording whether
`RemoveFinalizer` / `AddFinalizer` were invoked. -/
structure HandleResult where
  result : Option Resource
  error : Option Err
  removedCalled : Bool
  addedCalled : Bool
deriving DecidableEq, Repr

/-- Continuation of HandleInput after the RemoveFinalizer call in the
tearing-down branch succeeded or failed with not-found. -/
def handleInputAfterRemove (res : Resource) : HandleResult :=
  if res.phase = Phase.tearingDown then ⟨none, none, true, false⟩
  else ⟨some res, none, true, false⟩

/-- Source: `HandleInput` reads the additional input resource and
automatically manages finalizers; by default maps the resource using the
same id. -/
def HandleInput (env : RWEnv) (finalizer : String) (main : Resource)
    (opts : List (HandleInputOptions → HandleInputOptions)) : HandleResult :=
  match env.get (resolveHandleInputId main opts) with
  | Except.error e =>
    if e = Err.notFound then ⟨none, none, false, false⟩
    else ⟨none, some e, false, false⟩
  | Except.ok res =>
    if res.phase = Phase.tearingDown ∨ main.phase = Phase.tearingDown then
      match env.removeFinalizerErr with
      | some e =>
        if e ≠ Err.notFound then ⟨none, some e, true, false⟩
        else handleInputAfterRemove res
      | none => handleInputAfterRemove res
    else if res.finalizers.contains finalizer then ⟨some res, none, false, false⟩
    else
      match env.addFinalizerErr with
      | some e => ⟨none, some e, false, true⟩
      | none => ⟨some res, none, false, true⟩

/-! ## SHA-256 (executable model of crypto/sha256 and encoding/hex) -/

/-- Truncation to a 32-bit word. -/
def w32 (n : Nat) : Nat := n % 4294967296

/-- Right rotation of a 32-bit word. -/
def rotr (n x : Nat) : Nat := w32 ((x >>> n) ||| (x <<< (32 - n)))

/-- SHA-256 choice function. -/
def shaCh (x y z : Nat) : Nat := (x &&& y) ^^^ ((4294967295 ^^^ x) &&& z)

/-- SHA-256 majority function. -/
def shaMaj (x y z : Nat) : Nat := (x &&& y) ^^^ (x &&& z) ^^^ (y &&& z)

/-- SHA-256 big Sigma 0. -/
def bigSigma0 (x : Nat) : Nat := rotr 2 x ^^^ rotr 13 x ^^^ rotr 22 x

/-- SHA-256 big Sigma 1. -/
def bigSigma1 (x : Nat) : Nat := rotr 6 x ^^^ rotr 11 x ^^^ rotr 25 x

/-- SHA-256 small sigma 0. -/
def smallSigma0 (x : Nat) : Nat := rotr 7 x ^^^ rotr 18 x ^^^ (x >>> 3)

/-- SHA-256 small sigma 1. -/
def smallSigma1 (x : Nat) : Nat := rotr 17 x ^^^ rotr 19 x ^^^ (x >>> 10)

/-- SHA-256 round constants (FIPS 180-4, written in decimal). -/
def sha256K : List Nat :=
  [1116352408, 1899447441, 3049323471, 3921009573, 961987163, 1508970993,
   2453635748, 2870763221, 3624381080, 310598401, 607225278, 1426881987,
   1925078388, 2162078206, 2614888103, 3248222580, 3835390401, 4022224774,
   264347078, 604807628, 770255983, 1249150122, 1555081692, 1996064986,
   2554220882, 2821834349, 2952996808, 3210313671, 3336571891, 3584528711,
   113926993, 338241895, 666307205, 773529912, 1294757372, 1396182291,
   1695183700, 1986661051, 2177026350, 2456956037, 2730485921, 2820302411,
   3259730800, 3345764771, 3516065817, 3600352804, 4094571909, 275423344,
   430227734, 506948616, 659060556, 883997877, 958139571, 1322822218,
   1537002063, 1747873779, 1955562222, 2024104815, 2227730452, 2361852424,
   2428436474, 2756734187, 3204031479, 3329325298]

/-- SHA-256 initial hash state (FIPS 180-4, written in decimal). -/
def sha256H0 : List Nat :=
  [1779033703, 3144134277, 1013904242, 2773480762,
   1359893119, 2600822924, 528734635, 1541459225]

/-- Big-endian words from a byte list, four bytes per word. -/
def bytesToWords : List Nat → List Nat
  | b0 :: b1 :: b2 :: b3 :: rest => (((b0 * 256 + b1) * 256 + b2) * 256 + b3) :: bytesToWords rest
  | _ => []

/-- One step of the message-schedule extension. -/
def shaExtendStep (w : List Nat) : List Nat :=
  let n := w.length
  w ++ [w32 (smallSigma1 (w.getD (n - 2) 0) + w.getD (n - 7) 0 +
             smallSigma0 (w.getD (n - 15) 0) + w.getD (n - 16) 0)]

/-- The full 64-word message schedule from the 16 block words. -/
def shaSchedule (ws : List Nat) : List Nat :=
  (List.range 48).foldl (fun w _ => shaExtendStep w) ws

/-- One SHA-256 compression round on the eight working variables. -/
def shaRound (st : List Nat) (kw : Nat × Nat) : List Nat :=
  match st with
  | [a, b, c, d, e, f, g, h] =>
    let t1 := w32 (h + bigSigma1 e + shaCh e f g + kw.1 + kw.2)
    let t2 := w32 (bigSigma0 a + shaMaj a b c)
    [w32 (t1 + t2), a, b, c, w32 (d + t1), e, f, g]
  | _ => st

/-- Compression of one 64-byte block into the hash state. -/
def shaProcessBlock (h : List Nat) (block : List Nat) : List Nat :=
  let st := (sha256K.zip (shaSchedule (bytesToWords block))).foldl shaRound h
  (h.zip st).map (fun p => w32 (p.1 + p.2))

/-- Big-endian bytes of a 64-bit length. -/
def be64 (n : Nat) : List Nat :=
  [(n >>> 56) % 256, (n >>> 48) % 256, (n >>> 40) % 256, (n >>> 32) % 256,
   (n >>> 24) % 256, (n >>> 16) % 256, (n >>> 8) % 256, n % 256]

/-- Big-endian bytes of a 32-bit word. -/
def be32 (n : Nat) : List Nat :=
  [(n >>> 24) % 256, (n >>> 16) % 256, (n >>> 8) % 256, n % 256]

/-- SHA-256 message padding to a multiple of 64 bytes. -/
def shaPad (msg : List Nat) : List Nat :=
  msg ++ 0x80 :: (List.replicate ((119 - msg.length % 64) % 64) 0 ++ be64 (msg.length * 8))

/-- Split a byte list into 64-byte chunks, with explicit fuel so that the
recursion is structural and the function reduces in the kernel. -/
def chunks64Go (fuel : Nat) (l : List Nat) : List (List Nat) :=
  match fuel, l with
  | _, [] => []
  | 0, _ => []
  | f + 1, l => l.take 64 :: chunks64Go f (l.drop 64)

/-- Split a byte list into 64-byte chunks. -/
def chunks64 (l : List Nat) : List (List Nat) := chunks64Go l.length l

/-- The SHA-256 digest bytes of a byte list. -/
def sha256Bytes (msg : List Nat) : List Nat :=
  ((chunks64 (shaPad msg)).foldl shaProcessBlock sha256H0).foldr (fun w acc => be32 w ++ acc) []

/-- Hexadecimal digit character. -/
def hexDigitChar (n : Nat) : Char := ("0123456789abcdef".toList).getD n '0'

/-- Lowercase hexadecimal encoding of a byte list. -/
def hexEncode (bs : List Nat) : String :=
  String.mk (bs.foldr (fun b acc => hexDigitChar (b / 16) :: hexDigitChar (b % 16) :: acc) [])

/-- The bytes of a string (code points; agrees with UTF-8 on ASCII). -/
def strBytes (s : String) : List Nat := s.data.map Char.toNat

/-- Hex-encoded SHA-256 digest of a string. -/
def sha256Hex (s : String) : String := hexEncode (sha256Bytes (strBytes s))

example : sha256Hex "abc" = "ba7816bf8f01cfea414140de5dae2223b00361a396177a9cb410ff61f20015ad" := by decide

example : sha256Hex "" = "e3b0c44298fc1c149afbf4c8996fb92427ae41e4649b934ca495991b7852b855" := by decide

/-! ## UpdateInputsVersions / UpdateInputsAnnotation -/

/-- Source: `InputResourceVersionAnnotation` is the annotation name where
the inputs version sha is stored. -/
def InputResourceVersionAnnotation : String := "inputResourceVersion"

/-- The hash input built by the loop of UpdateInputsAnnotation: version
tokens written in order, a comma written before every token but the
first. -/
def joinVersions : List String → String
  | [] => ""
  | [v] => v
  | v :: w :: rest => v ++ "," ++ joinVersions (w :: rest)

/-- The fingerprint UpdateInputsAnnotation stores: the hex-encoded SHA-256
digest of the comma-joined version tokens. -/
def inputsDigest (versions : List String) : String := sha256Hex (joinVersions versions)

/-- Source: `UpdateInputsAnnotation` updates the annotation with the input
resource version and returns whether it has changed. -/
def UpdateInputsAnnotation (out : Resource) (versions : List String) : Bool × Resource :=
  let inVersion := inputsDigest versions
  match kvGet out.annotations InputResourceVersionAnnotation with
  | some version =>
    if version = inVersion then (false, out)
    else (true, { out with annotations := kvSet out.annotations InputResourceVersionAnnotation inVersion })
  | none => (true, { out with annotations := kvSet out.annotations InputResourceVersionAnnotation inVersion })

/-- The version token `type/id@version` of one input resource. -/
def versionToken (input : Resource) : String :=
  input.rtype ++ "/" ++ input.id ++ "@" ++ input.version

/-- Source: `UpdateInputsVersions` generates a hash of the resource by
combining its inputs. -/
def UpdateInputsVersions (out : Resource) (inputs : List Resource) : Bool × Resource :=
  UpdateInputsAnnotation out (inputs.map versionToken)

/-! ## CopyUserLabels / ClearUserLabels -/

/-- Modelled from the spec: the reserved prefix classifying a label key as
system rather than user (constant `omni.SystemLabelPrefix`, declared
outside the shown sources); the spec's example treats `sidero.dev/x` as a
system key. -/
def SystemLabelPrefix : String := "sidero.dev/"

/-- Whether the string starts with the given string
(`strings.HasPrefix`). -/
def hasPrefixStr (s pre : String) : Bool := pre.data.isPrefixOf s.data

/-- Source: `ClearUserLabels` removes all user labels from the resource. -/
def ClearUserLabels (res : Resource) : Resource :=
  { res with labels := res.labels.filter (fun kv => hasPrefixStr kv.1 SystemLabelPrefix) }

/-- One iteration of the CopyUserLabels loop: set the entry unless its key
carries the system prefix. -/
def copyUserStep (acc : List (String × String)) (kv : String × String) : List (String × String) :=
  if hasPrefixStr kv.1 SystemLabelPrefix then acc else kvSet acc kv.1 kv.2

/-- Source: `CopyUserLabels` copies all user labels from one resource to
another, removing target user labels absent from the source map; system
labels are neither copied nor removed. -/
def CopyUserLabels (target : Resource) (labels : List (String × String)) : Resource :=
  let t := ClearUserLabels target
  if labels = [] then t
  else { t with labels := labels.foldl copyUserStep t.labels }

/-! ## GetTalosClient -/

/-- Reported lifecycle stage of a machine (the source compares against
`machine.MachineStatusEvent_MAINTENANCE` only). -/
inductive MachineStage where
  | maintenance
  | booting
  | running
  | unknown
deriving DecidableEq, Repr

/-- Modelled from the spec: the machine status snapshot resource
(`omni.MachineStatusSnapshot`, declared outside the shown sources), read
only for the machine status stage. -/
structure MachineStatusSnapshot where
  stage : MachineStage
deriving DecidableEq, Repr

/-- Modelled from the spec: the per-cluster trust-material resource
(`omni.TalosConfig`, declared outside the shown sources), opaque here. -/
structure TalosConfigRes where
  material : String
deriving DecidableEq, Repr

/-- Modelled from the spec: the cluster-membership label key
(`omni.LabelCluster`, declared outside the shown sources). -/
def LabelCluster : String := "omni.sidero.dev/cluster"

/-- Description of the client that `client.New` is asked to build: either
an unauthenticated TLS-verification-skipping client to the address, or a
client configured from the cluster trust material with an explicit
endpoint list. -/
inductive ClientDesc where
  | insecure (address : String)
  | secure (cfg : TalosConfigRes) (endpoints : List String)
deriving DecidableEq, Repr

/-- Environment of one GetTalosClient call: the outcome of the machine
status snapshot lookup by machine id, the outcome of the TalosConfig
lookup by cluster name, whether `talos.GetSocketOptions` returned options
(modelled from the spec), and the outcome of `client.New` for a requested
client (`none` = success, `some msg` = construction error message). -/
structure TalosEnv where
  snapshotGet : String → Except Err MachineStatusSnapshot
  talosConfigGet : String → Except Err TalosConfigRes
  socketOptsPresent : Bool
  mkClient : ClientDesc → Option String

/-- The insecure branch of GetTalosClient: `client.New` with
`InsecureSkipVerify` and the address as the endpoint; a construction
error is returned untranslated. -/
def mkInsecureClient (env : TalosEnv) (address : String) : Except Err ClientDesc :=
  match env.mkClient (ClientDesc.insecure address) with
  | some msg => Except.error (Err.other msg)
  | none => Except.ok (ClientDesc.insecure address)

/-- Tail of GetTalosClient from the cluster-label check on: cluster label,
TalosConfig lookup (a non-not-found failure wrapped with the cluster
name), and the secure `client.New` (a failure wrapped with the machine
id). -/
def getTalosClientCluster (env : TalosEnv) (address : String) (m : Resource) : Except Err ClientDesc :=
  match kvGet m.labels LabelCluster with
  | none => mkInsecureClient env address
  | some clusterName =>
    match env.talosConfigGet clusterName with
    | Except.error Err.notFound => mkInsecureClient env address
    | Except.error (Err.other msg) =>
      Except.error (Err.other ("cluster '" ++ clusterName ++ "' failed to get talosconfig: " ++ msg))
    | Except.ok cfg =>
      let endpoints := if env.socketOptsPresent then [] else [address]
      match env.mkClient (ClientDesc.secure cfg endpoints) with
      | some msg =>
        Except.error (Err.other ("failed to create client to machine '" ++ m.id ++ "': " ++ msg))
      | none => Except.ok (ClientDesc.secure cfg endpoints)

/-- Tail of GetTalosClient after the snapshot lookup: a snapshot in the
MAINTENANCE stage short-circuits to the insecure client. -/
def getTalosClientAfterSnapshot (env : TalosEnv) (address : String) (m : Resource)
    (snap : Option MachineStatusSnapshot) : Except Err ClientDesc :=
  match snap with
  | some s =>
    if s.stage = MachineStage.maintenance then mkInsecureClient env address
    else getTalosClientCluster env address m
  | none => getTalosClientCluster env address m

/-- Source: `GetTalosClient` for the machine id, automatically picking the
secure or insecure client. -/
def GetTalosClient (env : TalosEnv) (address : String) (machineResource : Option Resource) :
    Except Err ClientDesc :=
  match machineResource with
  | none => mkInsecureClient env address
  | some m =>
    match env.snapshotGet m.id with
    | Except.error Err.notFound => getTalosClientAfterSnapshot env address m none
    | Except.error (Err.other msg) => Except.error (Err.other msg)
    | Except.ok snap => getTalosClientAfterSnapshot env address m (some snap)

/-! ## SetPatchesCompress / getCompressed / IsEmptyPatch -/

/-- Modelled from the spec: a config patch with its two representations,
the uncompressed content (`Data`) and the compressed byte form
(`CompressedData`) of the `omni.ConfigPatch` spec (declared outside the
shown sources). -/
structure ConfigPatch where
  data : String
  compressedData : List Nat
deriving DecidableEq, Repr

/-- Modelled from the spec: the compression codec behind
`GetUncompressedData` / `SetUncompressedData`; compression and
decompression may fail with an error message. -/
structure Codec where
  compress : String → Except String (List Nat)
  decompress : List Nat → Except String String

/-- Whether a byte of the content counts as whitespace
(`bytes.TrimSpace`, ASCII part). -/
def isSpaceChar (ch : Char) : Bool :=
  ch = ' ' ∨ ch = '\t' ∨ ch = '\n' ∨ ch = '\x0b' ∨ ch = '\x0c' ∨ ch = '\r'

/-- The content with leading and trailing whitespace removed
(`bytes.TrimSpace`). -/
def trimSpace (s : String) : List Char :=
  ((s.data.dropWhile isSpaceChar).reverse.dropWhile isSpaceChar).reverse

/-- Modelled from the spec: `GetUncompressedData` decompresses the
compressed form when present and otherwise returns the uncompressed
content. -/
def getUncompressedData (c : Codec) (p : ConfigPatch) : Except String String :=
  if p.compressedData = [] then Except.ok p.data
  else c.decompress p.compressedData

/-- Modelled from the spec: `SetUncompressedData` stores the compressed
form of the given content as the canonical representation. -/
def setUncompressedData (c : Codec) (p : ConfigPatch) (s : String) : Except String ConfigPatch :=
  match c.compress s with
  | Except.error e => Except.error e
  | Except.ok comp => Except.ok { p with data := "", compressedData := comp }

/-- Source: `IsEmptyPatch` checks if the patch is empty: the uncompressed
content is all whitespace; a decompression error counts as non-empty. -/
def IsEmptyPatch (c : Codec) (p : ConfigPatch) : Bool :=
  match getUncompressedData c p with
  | Except.error _ => false
  | Except.ok s => trimSpace s = []

/-- Source: `getCompressed` returns nothing for an empty patch, reuses a
non-empty compressed representation, and otherwise compresses the
uncompressed content, returning the possibly updated patch alongside the
bytes. -/
def getCompressed (c : Codec) (p : ConfigPatch) : Except String (Option (List Nat) × ConfigPatch) :=
  if IsEmptyPatch c p then Except.ok (none, p)
  else if p.compressedData ≠ [] then Except.ok (some p.compressedData, p)
  else
    match getUncompressedData c p with
    | Except.error e => Except.error e
    | Except.ok s =>
      match setUncompressedData c p s with
      | Except.error e => Except.error e
      | Except.ok p2 => Except.ok (some p2.compressedData, p2)

/-- Source: `SetPatchesCompress` compresses the patches and appends them to
the compressed-patches collection; the first component of the result is
the collection (initially the accumulator), the second the error
returned, with no rollback of the collection on error. -/
def SetPatchesCompress (c : Codec) (acc : List (List Nat)) (patches : List ConfigPatch) :
    List (List Nat) × Option String :=
  match patches with
  | [] => (acc, none)
  | p :: rest =>
    match getCompressed c p with
    | Except.error e => (acc, some e)
    | Except.ok (none, _) => SetPatchesCompress c acc rest
    | Except.ok (some compr, p2) =>
      if compr.length < 1024 then
        if IsEmptyPatch c p2 then SetPatchesCompress c acc rest
        else SetPatchesCompress c (acc ++ [compr]) rest
      else SetPatchesCompress c (acc ++ [compr]) rest

/-! ## Theorems: HandleInput (C1, C10) -/

theorem handleInputAfterRemove_removedCalled (res : Resource) :
    (handleInputAfterRemove res).removedCalled = true := by
  unfold handleInputAfterRemove
  split <;> rfl

theorem handleInputAfterRemove_addedCalled (res : Resource) :
    (handleInputAfterRemove res).addedCalled = false := by
  unfold handleInputAfterRemove
  split <;> rfl

/-- C1: HandleInput, called with a reader-writer environment, a finalizer
name, an owner resource and an optional id (defaulting to the owner's
id), satisfies the per-call state machine: a not-found dependent yields
the zero value and no error; if the dependent or the owner is tearing
down, the finalizer removal is invoked and, when it succeeds or fails
with not-found, the call returns the zero value if the dependent itself
is tearing down and the dependent otherwise; when both are running the
dependent is returned, the finalizer being added exactly when not already
present. -/
theorem HandleInput_state_machine (env : RWEnv) (fin : String) (main : Resource)
    (opts : List (HandleInputOptions → HandleInputOptions)) :
    (resolveHandleInputId main [] = main.id) ∧
    (env.get (resolveHandleInputId main opts) = Except.error Err.notFound →
      HandleInput env fin main opts = ⟨none, none, false, false⟩) ∧
    (∀ res, env.get (resolveHandleInputId main opts) = Except.ok res →
      (res.phase = Phase.tearingDown ∨ main.phase = Phase.tearingDown) →
      (HandleInput env fin main opts).removedCalled = true ∧
      ((env.removeFinalizerErr = none ∨ env.removeFinalizerErr = some Err.notFound) →
        HandleInput env fin main opts =
          if res.phase = Phase.tearingDown then ⟨none, none, true, false⟩
          else ⟨some res, none, true, false⟩)) ∧
    (∀ res, env.get (resolveHandleInputId main opts) = Except.ok res →
      res.phase = Phase.running → main.phase = Phase.running →
      (res.finalizers.contains fin = true →
        HandleInput env fin main opts = ⟨some res, none, false, false⟩) ∧
      (res.finalizers.contains fin = false → env.addFinalizerErr = none →
        HandleInput env fin main opts = ⟨some res, none, false, true⟩)) := by
  refine ⟨rfl, ?_, ?_, ?_⟩
  · intro hget
    simp [HandleInput, hget]
  · intro res hget htd
    constructor
    · unfold HandleInput
      rw [hget]
      dsimp only
      rw [if_pos htd]
      cases hrm : env.removeFinalizerErr with
      | none => exact handleInputAfterRemove_removedCalled res
      | some e =>
        by_cases he : e = Err.notFound
        · simp [he, handleInputAfterRemove_removedCalled]
        · simp [he]
    · intro hok
      unfold HandleInput
      rw [hget]
      dsimp only
      rw [if_pos htd]
      rcases hok with hok | hok <;> rw [hok] <;> simp [handleInputAfterRemove]
  · intro res hget hres hmain
    have htd : ¬(res.phase = Phase.tearingDown ∨ main.phase = Phase.tearingDown) := by
      simp [hres, hmain]
    constructor
    · intro hc
      unfold HandleInput
      rw [hget]
      dsimp only
      rw [if_neg htd, if_pos hc]
    · intro hc hadd
      unfold HandleInput
      rw [hget]
      dsimp only
      rw [if_neg htd, hc, hadd]
      simp

/-- C10: HandleInput invokes AddFinalizer only in the branch where the
fetched dependent and the owner are both in the Running phase and the
finalizer is not already present; in particular it never adds the
finalizer when either side is tearing down. -/
theorem HandleInput_add_only_when_running (env : RWEnv) (fin : String) (main : Resource)
    (opts : List (HandleInputOptions → HandleInputOptions)) :
    (HandleInput env fin main opts).addedCalled = true →
    ∃ res, env.get (resolveHandleInputId main opts) = Except.ok res ∧
      res.phase = Phase.running ∧ main.phase = Phase.running ∧
      res.finalizers.contains fin = false := by
  intro h
  unfold HandleInput at h
  cases hget : env.get (resolveHandleInputId main opts) with
  | error e =>
    rw [hget] at h
    by_cases he : e = Err.notFound <;> simp [he] at h
  | ok res =>
    rw [hget] at h
    dsimp only at h
    by_cases htd : res.phase = Phase.tearingDown ∨ main.phase = Phase.tearingDown
    · rw [if_pos htd] at h
      cases hrm : env.removeFinalizerErr with
      | none =>
        rw [hrm] at h
        rw [handleInputAfterRemove_addedCalled] at h
        exact absurd h (by simp)
      | some e =>
        rw [hrm] at h
        by_cases he : e = Err.notFound
        · simp [he, handleInputAfterRemove_addedCalled] at h
        · simp [he] at h
    · rw [if_neg htd] at h
      push_neg at htd
      have hres : res.phase = Phase.running := by
        cases hp : res.phase
        · rfl
        · exact absurd hp htd.1
      have hmain : main.phase = Phase.running := by
        cases hp : main.phase
        · rfl
        · exact absurd hp htd.2
      by_cases hc : res.finalizers.contains fin
      · rw [if_pos hc] at h
        simp at h
      · rw [if_neg hc] at h
        refine ⟨res, rfl, hres, hmain, by simpa using hc⟩

/-! ## Association map lemmas -/

theorem kvGet_kvSet_self (m : List (String × String)) (k v : String) :
    kvGet (kvSet m k v) k = some v := by
  induction m with
  | nil => simp [kvSet, kvGet]
  | cons kv rest ih =>
    obtain ⟨k1, v1⟩ := kv
    by_cases h1 : k1 = k
    · simp [kvSet, kvGet, h1]
    · simp [kvSet, kvGet, h1, ih]

theorem kvGet_kvSet_ne (m : List (String × String)) (k v k2 : String) (h : k2 ≠ k) :
    kvGet (kvSet m k v) k2 = kvGet m k2 := by
  have hk : ¬k = k2 := fun he => h he.symm
  induction m with
  | nil => simp [kvSet, kvGet, hk]
  | cons kv rest ih =>
    obtain ⟨k1, v1⟩ := kv
    by_cases h1 : k1 = k
    · subst h1
      simp [kvSet, kvGet, hk]
    · simp [kvSet, kvGet, h1, ih]

theorem kvGet_eq_none_forall (m : List (String × String)) (k : String)
    (h : kvGet m k = none) : ∀ kv ∈ m, kv.1 ≠ k := by
  induction m with
  | nil => simp
  | cons kv rest ih =>
    obtain ⟨k1, v1⟩ := kv
    by_cases h1 : k1 = k
    · simp [kvGet, h1] at h
    · simp [kvGet, h1] at h
      intro kv2 hm
      rcases List.mem_cons.mp hm with hm2 | hm2
      · simp [hm2, h1]
      · exact ih h kv2 hm2

/-! ## Theorems: UpdateInputsAnnotation / UpdateInputsVersions (C5, C9, C4) -/

theorem updateInputs_sets_digest (out : Resource) (vs : List String) :
    kvGet ( UpdateInputsAnnotation out vs).2.annotations InputResourceVersionAnnotation =
      some (inputsDigest vs) := by
  unfold UpdateInputsAnnotation
  cases hk : kvGet out.annotations InputResourceVersionAnnotation with
  | none => simp [kvGet_kvSet_self]
  | some v =>
    by_cases hv : v = inputsDigest vs
    · simp [hv, hk]
    · simp [hv, kvGet_kvSet_self]

theorem updateInputs_result (out : Resource) (vs : List String) :
    ( UpdateInputsAnnotation out vs).2 = out ∨
    ( UpdateInputsAnnotation out vs).2 =
      { out with annotations := kvSet out.annotations InputResourceVersionAnnotation (inputsDigest vs) } := by
  unfold UpdateInputsAnnotation
  cases kvGet out.annotations InputResourceVersionAnnotation with
  | none => exact Or.inr rfl
  | some v =>
    by_cases hv : v = inputsDigest vs
    · left
      simp [hv]
    · right
      simp [hv]

theorem updateInputs_second_false (out : Resource) (vs ws : List String)
    (h : inputsDigest vs = inputsDigest ws) :
    ( UpdateInputsAnnotation ( UpdateInputsAnnotation out vs).2 ws).1 = false := by
  have hset := updateInputs_sets_digest out vs
  generalize hg : ( UpdateInputsAnnotation out vs).2 = r at hset ⊢
  unfold UpdateInputsAnnotation
  rw [hset]
  simp [h]

/-- C5: UpdateInputsAnnotation returns true exactly when the stored
inputResourceVersion annotation is absent or differs from the new digest
and false when it is unchanged; calling it twice in a row with the same
version tokens on the same resource returns false the second time. -/
theorem UpdateInputsAnnotation_change_detection (out : Resource) (versions : List String) :
    (( UpdateInputsAnnotation out versions).1 = true ↔
      kvGet out.annotations InputResourceVersionAnnotation ≠ some (inputsDigest versions)) ∧
    ( UpdateInputsAnnotation ( UpdateInputsAnnotation out versions).2 versions).1 = false := by
  constructor
  · unfold UpdateInputsAnnotation
    cases hk : kvGet out.annotations InputResourceVersionAnnotation with
    | none => simp
    | some v =>
      by_cases hv : v = inputsDigest versions
      · simp [hv]
      · simp [hv]
  · exact updateInputs_second_false out versions versions rfl

/-- C9: UpdateInputsAnnotation mutates at most the single annotation keyed
inputResourceVersion: every other annotation, the labels, and all other
metadata fields of the output resource are unchanged; UpdateInputsVersions
acts on the output exactly through it, and in this pure embedding the
input resources are values that cannot be mutated. -/
theorem UpdateInputs_frame (out : Resource) (versions : List String) (k : String)
    (hk : k ≠ InputResourceVersionAnnotation) :
    kvGet ( UpdateInputsAnnotation out versions).2.annotations k = kvGet out.annotations k ∧
    ( UpdateInputsAnnotation out versions).2.labels = out.labels ∧
    ( UpdateInputsAnnotation out versions).2.id = out.id ∧
    ( UpdateInputsAnnotation out versions).2.rtype = out.rtype ∧
    ( UpdateInputsAnnotation out versions).2.version = out.version ∧
    ( UpdateInputsAnnotation out versions).2.phase = out.phase ∧
    ( UpdateInputsAnnotation out versions).2.finalizers = out.finalizers ∧
    ∀ inputs : List Resource, UpdateInputsVersions out inputs =
      UpdateInputsAnnotation out (inputs.map versionToken) := by
  rcases updateInputs_result out versions with hr | hr
  · rw [hr]
    exact ⟨rfl, rfl, rfl, rfl, rfl, rfl, rfl, fun _ => rfl⟩
  · rw [hr]
    refine ⟨?_, rfl, rfl, rfl, rfl, rfl, rfl, fun _ => rfl⟩
    exact kvGet_kvSet_ne _ _ _ _ hk

/-! ## Comma-join injectivity (C4) -/

/-- The comma-joined tokens at the character level. -/
def joinTok : List (List Char) → List Char
  | [] => []
  | [v] => v
  | v :: w :: rest => v ++ ',' :: joinTok (w :: rest)

theorem joinVersions_data : ∀ vs : List String, (joinVersions vs).data = joinTok (vs.map String.data)
  | [] => rfl
  | [_] => rfl
  | v :: w :: rest => by
    have ih := joinVersions_data (w :: rest)
    simp [joinVersions, joinTok, String.data_append, ih]

theorem comma_split_unique (u : List Char) : ∀ (v x y : List Char), ¬ ',' ∈ u → ¬ ',' ∈ v →
    u ++ ',' :: x = v ++ ',' :: y → u = v ∧ x = y := by
  induction u with
  | nil =>
    intro v x y _ hv h
    cases v with
    | nil => simpa using h
    | cons c vt =>
      simp at h
      rw [← h.1] at hv
      simp at hv
  | cons a ut ih =>
    intro v x y hu hv h
    simp at hu
    cases v with
    | nil =>
      simp at h
      exact absurd h.1.symm hu.1
    | cons b vt =>
      simp at hv
      simp at h
      obtain ⟨hab, hrest⟩ := h
      obtain ⟨huv, hxy⟩ := ih vt x y hu.2 hv.2 hrest
      exact ⟨by rw [hab, huv], hxy⟩

theorem joinTok_inj : ∀ (vs ws : List (List Char)), vs ≠ [] → ws ≠ [] →
    (∀ l ∈ vs, ¬ ',' ∈ l) → (∀ l ∈ ws, ¬ ',' ∈ l) →
    joinTok vs = joinTok ws → vs = ws
  | [], _, hvs, _, _, _, _ => absurd rfl hvs
  | _ :: _, [], _, hws, _, _, _ => absurd rfl hws
  | [v], [w], _, _, _, _, h => by rw [show v = w from h]
  | [v], w :: w2 :: wt, _, _, hcv, _, h => by
    have hv : ¬ ',' ∈ v := hcv v (by simp)
    rw [show v = w ++ ',' :: joinTok (w2 :: wt) from h] at hv
    simp at hv
  | v :: v2 :: vt, [w], _, _, _, hcw, h => by
    have hw : ¬ ',' ∈ w := hcw w (by simp)
    rw [show w = v ++ ',' :: joinTok (v2 :: vt) from h.symm] at hw
    simp at hw
  | v :: v2 :: vt, w :: w2 :: wt, _, _, hcv, hcw, h => by
    have hv : ¬ ',' ∈ v := hcv v (by simp)
    have hw : ¬ ',' ∈ w := hcw w (by simp)
    obtain ⟨hvw, hrest⟩ := comma_split_unique v w (joinTok (v2 :: vt)) (joinTok (w2 :: wt)) hv hw h
    have htail : v2 :: vt = w2 :: wt :=
      joinTok_inj (v2 :: vt) (w2 :: wt) (by simp) (by simp)
        (fun l hl => hcv l (List.mem_cons_of_mem v hl))
        (fun l hl => hcw l (List.mem_cons_of_mem w hl)) hrest
    rw [hvw, htail]

/-- A resource with one user label and one annotation, used as concrete
input of witnesses. -/
def outEx : Resource :=
  ⟨"res-1", "TestType", "7", Phase.running, [("a", "1")], [("note", "keep")], []⟩

/-- C4 counterexample: the token sequences `["a", "a,a"]` and
`["a,a", "a"]` differ (the order and values of the tokens change), yet
both comma-join to `a,a,a`, so the digest is certainly unchanged and the
second UpdateInputsAnnotation call reports no change. -/
theorem inputsDigest_order_collision :
    (["a", "a,a"] : List String) ≠ ["a,a", "a"] ∧
    inputsDigest ["a", "a,a"] = inputsDigest ["a,a", "a"] ∧
    ( UpdateInputsAnnotation ( UpdateInputsAnnotation outEx ["a", "a,a"]).2 ["a,a", "a"]).1 = false := by
  have hj : joinVersions ["a", "a,a"] = joinVersions ["a,a", "a"] := by decide
  have hd : inputsDigest ["a", "a,a"] = inputsDigest ["a,a", "a"] := congrArg sha256Hex hj
  exact ⟨by decide, hd, updateInputs_second_false outEx ["a", "a,a"] ["a,a", "a"] hd⟩

/-- C4 amended: the fingerprint is deterministic (identical ordered token
sequences give identical digests), and it is order- and value-sensitive up
to the comma delimiter: two different non-empty sequences of comma-free
tokens always produce different hash inputs, and hence different digests
unless SHA-256 collides on them — concretely, swapping the two tokens
`a` and `b` changes the digest. Token sequences containing commas may
collide with certainty, as the counterexample shows. -/
theorem inputsDigest_deterministic_order_sensitive :
    (∀ vs ws : List String, vs = ws → inputsDigest vs = inputsDigest ws) ∧
    (∀ vs ws : List String, vs ≠ [] → ws ≠ [] →
      (∀ s ∈ vs, ¬ ',' ∈ s.data) → (∀ s ∈ ws, ¬ ',' ∈ s.data) →
      vs ≠ ws → joinVersions vs ≠ joinVersions ws) ∧
    inputsDigest ["a", "b"] ≠ inputsDigest ["b", "a"] := by
  refine ⟨fun vs ws h => by rw [h], ?_, by decide⟩
  intro vs ws hvs hws hcv hcw hne hj
  apply hne
  have hd : (joinVersions vs).data = (joinVersions ws).data := by rw [hj]
  rw [joinVersions_data, joinVersions_data] at hd
  have hmap : vs.map String.data = ws.map String.data := by
    refine joinTok_inj (vs.map String.data) (ws.map String.data) (by simpa using hvs)
      (by simpa using hws) ?_ ?_ hd
    · intro l hl
      obtain ⟨s, hs, rfl⟩ := List.mem_map.mp hl
      exact hcv s hs
    · intro l hl
      obtain ⟨s, hs, rfl⟩ := List.mem_map.mp hl
      exact hcw s hs
  have hinj : Function.Injective String.data := fun s t hst => String.ext hst
  exact List.map_injective_iff.mpr hinj hmap

/-! ## Theorems: CopyUserLabels / ClearUserLabels (C6) -/

theorem kvGet_filter_sys (m : List (String × String)) (k : String)
    (hk : hasPrefixStr k SystemLabelPrefix = true) :
    kvGet (m.filter (fun kv => hasPrefixStr kv.1 SystemLabelPrefix)) k = kvGet m k := by
  induction m with
  | nil => rfl
  | cons kv rest ih =>
    obtain ⟨k1, v1⟩ := kv
    by_cases h1 : hasPrefixStr k1 SystemLabelPrefix = true
    · by_cases hk1 : k1 = k
      · simp [List.filter_cons, h1, kvGet, hk1, hk]
      · simp [List.filter_cons, h1, kvGet, hk1, ih]
    · have hk1 : ¬k1 = k := fun he => h1 (by rw [he]; exact hk)
      simp [List.filter_cons, h1, kvGet, hk1, ih]

theorem kvGet_filter_user_none (m : List (String × String)) (k : String)
    (hk : hasPrefixStr k SystemLabelPrefix = false) :
    kvGet (m.filter (fun kv => hasPrefixStr kv.1 SystemLabelPrefix)) k = none := by
  induction m with
  | nil => rfl
  | cons kv rest ih =>
    obtain ⟨k1, v1⟩ := kv
    by_cases h1 : hasPrefixStr k1 SystemLabelPrefix = true
    · have hk1 : ¬k1 = k := fun he => by rw [he, hk] at h1; exact Bool.noConfusion h1
      simp [List.filter_cons, h1, kvGet, hk1, ih]
    · simp [List.filter_cons, h1, ih]

theorem copyUserFold_sys (m : List (String × String)) (acc : List (String × String)) (k : String)
    (hk : hasPrefixStr k SystemLabelPrefix = true) :
    kvGet (m.foldl copyUserStep acc) k = kvGet acc k := by
  induction m generalizing acc with
  | nil => rfl
  | cons kv rest ih =>
    obtain ⟨k1, v1⟩ := kv
    by_cases h1 : hasPrefixStr k1 SystemLabelPrefix = true
    · simp [List.foldl_cons, copyUserStep, h1, ih]
    · have hk1 : ¬k = k1 := fun he => by rw [← he, hk] at h1; exact h1 rfl
      simp only [List.foldl_cons, copyUserStep]
      rw [if_neg (by simp [h1]), ih, kvGet_kvSet_ne _ _ _ _ hk1]

theorem copyUserFold_absent (m : List (String × String)) (acc : List (String × String)) (k : String)
    (hm : ∀ kv ∈ m, kv.1 ≠ k) :
    kvGet (m.foldl copyUserStep acc) k = kvGet acc k := by
  induction m generalizing acc with
  | nil => rfl
  | cons kv rest ih =>
    obtain ⟨k1, v1⟩ := kv
    have hk1 : k1 ≠ k := hm (k1, v1) (List.mem_cons_self _ _)
    have hrest : ∀ kv ∈ rest, kv.1 ≠ k := fun kv hkv => hm kv (List.mem_cons_of_mem _ hkv)
    by_cases h1 : hasPrefixStr k1 SystemLabelPrefix = true
    · simp [List.foldl_cons, copyUserStep, h1, ih _ hrest]
    · have hk2 : ¬k = k1 := fun he => hk1 he.symm
      simp only [List.foldl_cons, copyUserStep]
      rw [if_neg (by simp [h1]), ih _ hrest, kvGet_kvSet_ne _ _ _ _ hk2]

theorem copyUserFold_present (m : List (String × String)) (acc : List (String × String))
    (k v : String) (hk : hasPrefixStr k SystemLabelPrefix = false)
    (hnd : (m.map Prod.fst).Nodup) (hv : kvGet m k = some v) :
    kvGet (m.foldl copyUserStep acc) k = some v := by
  induction m generalizing acc with
  | nil => simp [kvGet] at hv
  | cons kv rest ih =>
    obtain ⟨k1, v1⟩ := kv
    simp only [List.map_cons, List.nodup_cons] at hnd
    by_cases hk1 : k1 = k
    · subst hk1
      simp [kvGet] at hv
      subst hv
      have hrest : ∀ kv ∈ rest, kv.1 ≠ k1 := by
        intro kv hkv he
        exact hnd.1 (he ▸ List.mem_map_of_mem Prod.fst hkv)
      simp only [List.foldl_cons, copyUserStep]
      rw [if_neg (by simp [hk]), copyUserFold_absent rest _ k1 hrest, kvGet_kvSet_self]
    · simp only [kvGet, hk1, if_false] at hv
      by_cases h1 : hasPrefixStr k1 SystemLabelPrefix = true
      · simpa [List.foldl_cons, copyUserStep, h1] using ih _ hnd.2 hv
      · simp only [List.foldl_cons, copyUserStep]
        rw [if_neg (by simp [h1])]
        exact ih _ hnd.2 hv

/-- C6: CopyUserLabels leaves every system-prefixed label untouched and
makes the non-system labels of the target exactly the non-system entries
of the input map (keys of a Go map are unique): looking up any system key
gives what the target had, and looking up any user key gives what the
input map has — in particular, previously present user labels absent from
the input map are removed. -/
theorem CopyUserLabels_labels (target : Resource) (m : List (String × String)) :
    (CopyUserLabels target m).labels =
      m.foldl copyUserStep (target.labels.filter (fun kv => hasPrefixStr kv.1 SystemLabelPrefix)) := by
  unfold CopyUserLabels ClearUserLabels
  by_cases hm : m = []
  · subst hm
    simp
  · simp [hm]

/-- C6: CopyUserLabels leaves every system-prefixed label untouched and
makes the non-system labels of the target exactly the non-system entries
of the input map (keys of a Go map are unique): looking up any system key
gives what the target had, and looking up any user key gives what the
input map has — in particular, previously present user labels absent from
the input map are removed. -/
theorem CopyUserLabels_spec (target : Resource) (m : List (String × String))
    (hnd : (m.map Prod.fst).Nodup) :
    (∀ k, hasPrefixStr k SystemLabelPrefix = true →
      kvGet (CopyUserLabels target m).labels k = kvGet target.labels k) ∧
    (∀ k, hasPrefixStr k SystemLabelPrefix = false →
      kvGet (CopyUserLabels target m).labels k = kvGet m k) := by
  constructor
  · intro k hk
    rw [CopyUserLabels_labels, copyUserFold_sys _ _ _ hk]
    exact kvGet_filter_sys _ _ hk
  · intro k hk
    rw [CopyUserLabels_labels]
    cases hv : kvGet m k with
    | none =>
      rw [copyUserFold_absent _ _ _ (kvGet_eq_none_forall m k hv)]
      exact kvGet_filter_user_none _ _ hk
    | some v =>
      exact copyUserFold_present m _ k v hk hnd hv

/-- The resource of the C6 example: user label `a=1` and system label
`sidero.dev/x=y`. -/
def exTarget : Resource :=
  ⟨"m-1", "TestType", "1", Phase.running, [("a", "1"), ("sidero.dev/x", "y")], [], []⟩

/-- The input user-label map of the C6 example. -/
def exUser : List (String × String) := [("b", "2")]

/-- C6 witness: on the claim's example, the system label keeps its value,
the new user label is looked up from the input map, and the old user label
`a` is gone. -/
theorem CopyUserLabels_spec_witness :
    kvGet (CopyUserLabels exTarget exUser).labels "sidero.dev/x" = kvGet exTarget.labels "sidero.dev/x" ∧
    kvGet (CopyUserLabels exTarget exUser).labels "b" = kvGet exUser "b" ∧
    kvGet (CopyUserLabels exTarget exUser).labels "a" = kvGet exUser "a" :=
  ⟨(CopyUserLabels_spec exTarget exUser (by decide)).1 "sidero.dev/x" (by decide),
   (CopyUserLabels_spec exTarget exUser (by decide)).2 "b" (by decide),
   (CopyUserLabels_spec exTarget exUser (by decide)).2 "a" (by decide)⟩

/-! ## Witness inputs and witnesses for HandleInput and UpdateInputs -/

/-- A running dependent resource, concrete input of witnesses. -/
def resRun : Resource := ⟨"dep-1", "DepType", "2", Phase.running, [], [], []⟩

/-- A running owner resource, concrete input of witnesses. -/
def mainRun : Resource := ⟨"dep-1", "OwnerType", "3", Phase.running, [], [], []⟩

/-- A reader-writer environment where the dependent exists and both
finalizer operations succeed. -/
def envRun : RWEnv := ⟨fun _ => Except.ok resRun, none, none⟩

/-- C1 witness: on a concrete environment with both resources running and
no finalizer yet, the call returns the dependent and adds the
finalizer. -/
theorem HandleInput_state_machine_witness :
    HandleInput envRun "guard" mainRun [] = ⟨some resRun, none, false, true⟩ :=
  ((HandleInput_state_machine envRun "guard" mainRun []).2.2.2 resRun rfl rfl rfl).2 rfl rfl

/-- C10 witness: on the same concrete environment AddFinalizer is invoked,
so the running-phase and finalizer-absence facts follow. -/
theorem HandleInput_add_only_when_running_witness :
    ∃ res, envRun.get (resolveHandleInputId mainRun []) = Except.ok res ∧
      res.phase = Phase.running ∧ mainRun.phase = Phase.running ∧
      res.finalizers.contains "guard" = false :=
  HandleInput_add_only_when_running envRun "guard" mainRun [] rfl

/-- C9 witness: the unrelated annotation `note` of the concrete resource
is untouched by UpdateInputsAnnotation. -/
theorem UpdateInputs_frame_witness :
    kvGet ( UpdateInputsAnnotation outEx ["TestType/res-1@7"]).2.annotations "note" =
      kvGet outEx.annotations "note" :=
  (UpdateInputs_frame outEx ["TestType/res-1@7"] "note" (by decide)).1

/-- C4 witness: two distinct comma-free orderings produce different hash
inputs, a concrete instance of the amended order sensitivity. -/
theorem inputsDigest_deterministic_order_sensitive_witness :
    joinVersions ["x", "y"] ≠ joinVersions ["y", "x"] :=
  inputsDigest_deterministic_order_sensitive.2.1 ["x", "y"] ["y", "x"] (by decide) (by decide)
    (by decide) (by decide) (by decide)

/-! ## Substring containment -/

/-- Whether the pattern occurs as a contiguous run inside the character
list. -/
def listContainsChars (pat : List Char) : List Char → Bool
  | [] => pat.isEmpty
  | c :: rest => pat.isPrefixOf (c :: rest) || listContainsChars pat rest

/-- Whether `pat` occurs as a contiguous substring of `s`. -/
def strContains (s pat : String) : Bool := listContainsChars pat.data s.data

theorem isPrefixOf_append_self : ∀ (xs ys : List Char), xs.isPrefixOf (xs ++ ys) = true
  | [], ys => by cases ys <;> rfl
  | x :: xs, ys => by simp [List.isPrefixOf, isPrefixOf_append_self xs ys]

theorem listContainsChars_self_append (pat suf : List Char) :
    listContainsChars pat (pat ++ suf) = true := by
  cases pat with
  | nil =>
    cases suf with
    | nil => rfl
    | cons c rest => simp [listContainsChars, List.isPrefixOf]
  | cons p pt =>
    have h := isPrefixOf_append_self (p :: pt) suf
    simp only [List.cons_append] at h
    simp [listContainsChars, List.append_eq, h]

theorem listContainsChars_append (pat pre suf : List Char) :
    listContainsChars pat (pre ++ pat ++ suf) = true := by
  induction pre with
  | nil => simpa using listContainsChars_self_append pat suf
  | cons c pre ih =>
    simp only [List.cons_append, listContainsChars, Bool.or_eq_true]
    right
    simpa [List.append_assoc] using ih

theorem strContains_of_parts (a b c d : String) :
    strContains (a ++ b ++ c ++ d) b = true := by
  unfold strContains
  have h : (a ++ b ++ c ++ d).data = a.data ++ b.data ++ (c.data ++ d.data) := by
    simp [String.data_append]
  rw [h]
  exact listContainsChars_append b.data a.data (c.data ++ d.data)

/-! ## Theorems: GetTalosClient (C2, C7) -/

/-- The machine-status-snapshot lookup lets GetTalosClient proceed past
the maintenance check: it is not found or reports a non-maintenance
stage. -/
def snapshotAllowsSecure (env : TalosEnv) (m : Resource) : Prop :=
  env.snapshotGet m.id = Except.error Err.notFound ∨
  ∃ snap, env.snapshotGet m.id = Except.ok snap ∧ snap.stage ≠ MachineStage.maintenance

/-- C2: GetTalosClient chooses trust by a first-match-wins ladder: no
machine resource, a machine in the MAINTENANCE stage, a machine without
the cluster label, or a machine whose cluster TalosConfig is absent all
yield the insecure TLS-verification-skipping client; otherwise the client
is built from the cluster's TalosConfig trust material. -/
theorem GetTalosClient_trust_ladder (env : TalosEnv) (address : String) :
    (GetTalosClient env address none = mkInsecureClient env address) ∧
    (∀ m snap, env.snapshotGet m.id = Except.ok snap → snap.stage = MachineStage.maintenance →
      GetTalosClient env address (some m) = mkInsecureClient env address) ∧
    (∀ m, snapshotAllowsSecure env m → kvGet m.labels LabelCluster = none →
      GetTalosClient env address (some m) = mkInsecureClient env address) ∧
    (∀ m c, snapshotAllowsSecure env m → kvGet m.labels LabelCluster = some c →
      env.talosConfigGet c = Except.error Err.notFound →
      GetTalosClient env address (some m) = mkInsecureClient env address) ∧
    (∀ m c cfg, snapshotAllowsSecure env m → kvGet m.labels LabelCluster = some c →
      env.talosConfigGet c = Except.ok cfg →
      GetTalosClient env address (some m) =
        match env.mkClient (ClientDesc.secure cfg (if env.socketOptsPresent then [] else [address])) with
        | some msg =>
          Except.error (Err.other ("failed to create client to machine '" ++ m.id ++ "': " ++ msg))
        | none => Except.ok (ClientDesc.secure cfg (if env.socketOptsPresent then [] else [address]))) := by
  refine ⟨rfl, ?_, ?_, ?_, ?_⟩
  · intro m snap hsnap hstage
    simp [GetTalosClient, hsnap, getTalosClientAfterSnapshot, hstage]
  · intro m hallow hlabel
    rcases hallow with hsnap | ⟨snap, hsnap, hstage⟩
    · simp [GetTalosClient, hsnap, getTalosClientAfterSnapshot, getTalosClientCluster, hlabel]
    · simp [GetTalosClient, hsnap, getTalosClientAfterSnapshot, hstage, getTalosClientCluster, hlabel]
  · intro m c hallow hlabel hcfg
    rcases hallow with hsnap | ⟨snap, hsnap, hstage⟩
    · simp [GetTalosClient, hsnap, getTalosClientAfterSnapshot, getTalosClientCluster, hlabel, hcfg]
    · simp [GetTalosClient, hsnap, getTalosClientAfterSnapshot, hstage, getTalosClientCluster, hlabel, hcfg]
  · intro m c cfg hallow hlabel hcfg
    rcases hallow with hsnap | ⟨snap, hsnap, hstage⟩
    · simp [GetTalosClient, hsnap, getTalosClientAfterSnapshot, getTalosClientCluster, hlabel, hcfg]
    · simp [GetTalosClient, hsnap, getTalosClientAfterSnapshot, hstage, getTalosClientCluster, hlabel, hcfg]

/-- The cluster trust material of the witness environment. -/
def cfgW : TalosConfigRes := ⟨"trust-material"⟩

/-- A machine carrying the cluster label `cl1`. -/
def mCluster : Resource :=
  ⟨"machine-2", "Machine", "1", Phase.running, [(LabelCluster, "cl1")], [], []⟩

/-- An environment where the snapshot is absent, cluster `cl1` has trust
material, no socket options apply, and client construction succeeds. -/
def envSecure : TalosEnv :=
  ⟨fun _ => Except.error Err.notFound,
   fun c => if c = "cl1" then Except.ok cfgW else Except.error Err.notFound,
   false,
   fun _ => none⟩

/-- C2 witness: on the concrete environment the ladder reaches the secure
case and the client is built from the cluster trust material with the
address as the endpoint. -/
theorem GetTalosClient_trust_ladder_witness :
    GetTalosClient envSecure "10.0.0.1" (some mCluster) =
      Except.ok (ClientDesc.secure cfgW ["10.0.0.1"]) := by
  have h := (GetTalosClient_trust_ladder envSecure "10.0.0.1").2.2.2.2 mCluster "cl1" cfgW
    (Or.inl rfl) (by decide) (by simp [envSecure])
  simpa using h

/-- An environment whose machine-status-snapshot lookup fails with a
non-not-found store error. -/
def envSnapFail : TalosEnv :=
  ⟨fun _ => Except.error (Err.other "store exploded"),
   fun _ => Except.error Err.notFound,
   false,
   fun _ => none⟩

/-- The machine of the C7 counterexample. -/
def mFail : Resource := ⟨"machine-1", "Machine", "1", Phase.running, [], [], []⟩

/-- C7 counterexample: a non-not-found failure of the machine-status
snapshot lookup aborts the call with the error returned untranslated: for
machine `machine-1` the returned message is exactly `store exploded`,
which contains neither the machine nor any cluster identity, so not every
store lookup failure is wrapped with identity context. -/
theorem GetTalosClient_snapshot_error_unwrapped :
    GetTalosClient envSnapFail "addr-1" (some mFail) = Except.error (Err.other "store exploded") ∧
    strContains "store exploded" "machine-1" = false :=
  ⟨rfl, by decide⟩

/-- C7 amended: a TalosConfig lookup failure other than not-found aborts
the call with an error wrapped with the cluster identity, and a secure
client construction failure is returned wrapped with the machine
identity; a non-not-found failure of the machine-status-snapshot lookup,
however, is propagated unchanged, without added identity context. -/
theorem GetTalosClient_error_wrapping (env : TalosEnv) (address : String) (m : Resource) :
    (∀ msg, env.snapshotGet m.id = Except.error (Err.other msg) →
      GetTalosClient env address (some m) = Except.error (Err.other msg)) ∧
    (∀ c msg, snapshotAllowsSecure env m → kvGet m.labels LabelCluster = some c →
      env.talosConfigGet c = Except.error (Err.other msg) →
      GetTalosClient env address (some m) =
        Except.error (Err.other ("cluster '" ++ c ++ "' failed to get talosconfig: " ++ msg)) ∧
      strContains ("cluster '" ++ c ++ "' failed to get talosconfig: " ++ msg) c = true) ∧
    (∀ c cfg msg, snapshotAllowsSecure env m → kvGet m.labels LabelCluster = some c →
      env.talosConfigGet c = Except.ok cfg →
      env.mkClient (ClientDesc.secure cfg (if env.socketOptsPresent then [] else [address])) = some msg →
      GetTalosClient env address (some m) =
        Except.error (Err.other ("failed to create client to machine '" ++ m.id ++ "': " ++ msg)) ∧
      strContains ("failed to create client to machine '" ++ m.id ++ "': " ++ msg) m.id = true) := by
  refine ⟨?_, ?_, ?_⟩
  · intro msg hsnap
    simp [GetTalosClient, hsnap]
  · intro c msg hallow hlabel hcfg
    refine ⟨?_, strContains_of_parts "cluster '" c "' failed to get talosconfig: " msg⟩
    rcases hallow with hsnap | ⟨snap, hsnap, hstage⟩
    · simp [GetTalosClient, hsnap, getTalosClientAfterSnapshot, getTalosClientCluster, hlabel, hcfg]
    · simp [GetTalosClient, hsnap, getTalosClientAfterSnapshot, hstage, getTalosClientCluster, hlabel, hcfg]
  · intro c cfg msg hallow hlabel hcfg hmk
    refine ⟨?_, strContains_of_parts "failed to create client to machine '" m.id "': " msg⟩
    rcases hallow with hsnap | ⟨snap, hsnap, hstage⟩
    · simp [GetTalosClient, hsnap, getTalosClientAfterSnapshot, getTalosClientCluster, hlabel, hcfg, hmk]
    · simp [GetTalosClient, hsnap, getTalosClientAfterSnapshot, hstage, getTalosClientCluster, hlabel, hcfg, hmk]

/-- An environment where the TalosConfig lookup for every cluster fails
with a non-not-found store error. -/
def envCfgFail : TalosEnv :=
  ⟨fun _ => Except.error Err.notFound,
   fun _ => Except.error (Err.other "boom"),
   false,
   fun _ => none⟩

/-- C7 witness: on the concrete environment the TalosConfig lookup failure
comes back wrapped with the cluster name `cl1`. -/
theorem GetTalosClient_error_wrapping_witness :
    GetTalosClient envCfgFail "addr-2" (some mCluster) =
      Except.error (Err.other ("cluster '" ++ "cl1" ++ "' failed to get talosconfig: " ++ "boom")) ∧
    strContains ("cluster '" ++ "cl1" ++ "' failed to get talosconfig: " ++ "boom") "cl1" = true :=
  (GetTalosClient_error_wrapping envCfgFail "addr-2" mCluster).2.1 "cl1" "boom"
    (Or.inl rfl) (by decide) rfl

/-! ## Theorems: SetPatchesCompress / getCompressed / IsEmptyPatch (C3, C8) -/

/-- The bytes SetPatchesCompress appends for one patch: nothing for an
empty patch, the stored compressed form when present, otherwise the
compression of the uncompressed content. -/
def patchOutput (c : Codec) (p : ConfigPatch) : Option (List Nat) :=
  if IsEmptyPatch c p then none
  else if p.compressedData ≠ [] then some p.compressedData
  else
    match c.compress p.data with
    | Except.ok comp => some comp
    | Except.error _ => none

/-- A well-behaved codec: compression round-trips through decompression
and never produces an empty byte sequence (both hold of the gzip codec
the source uses). -/
def GoodCodec (c : Codec) : Prop :=
  ∀ s comp, c.compress s = Except.ok comp → c.decompress comp = Except.ok s ∧ comp ≠ []

theorem isEmpty_after_set (c : Codec) (hgc : GoodCodec c) (p : ConfigPatch) (comp : List Nat)
    (hcd : p.compressedData = []) (hc : c.compress p.data = Except.ok comp)
    (hne : IsEmptyPatch c p = false) :
    IsEmptyPatch c { p with data := "", compressedData := comp } = false := by
  obtain ⟨hdec, hcomp⟩ := hgc p.data comp hc
  unfold IsEmptyPatch getUncompressedData at hne ⊢
  simp [hcd] at hne
  simp [hcomp, hdec, hne]

theorem setPatches_cons_error (c : Codec) (acc : List (List Nat)) (p : ConfigPatch)
    (rest : List ConfigPatch) (e : String) (he : getCompressed c p = Except.error e) :
    SetPatchesCompress c acc (p :: rest) = (acc, some e) := by
  simp [SetPatchesCompress, he]

theorem setPatches_cons_skip (c : Codec) (acc : List (List Nat)) (p : ConfigPatch)
    (rest : List ConfigPatch) (hemp : IsEmptyPatch c p = true) :
    SetPatchesCompress c acc (p :: rest) = SetPatchesCompress c acc rest := by
  have hg : getCompressed c p = Except.ok (none, p) := by simp [getCompressed, hemp]
  simp [SetPatchesCompress, hg]

theorem setPatches_cons_reuse (c : Codec) (acc : List (List Nat)) (p : ConfigPatch)
    (rest : List ConfigPatch) (hcd : p.compressedData ≠ []) (hemp : IsEmptyPatch c p = false) :
    SetPatchesCompress c acc (p :: rest) = SetPatchesCompress c (acc ++ [p.compressedData]) rest := by
  have hg : getCompressed c p = Except.ok (some p.compressedData, p) := by
    simp [getCompressed, hemp, hcd]
  by_cases hlen : p.compressedData.length < 1024
  · simp [SetPatchesCompress, hg, hlen, hemp]
  · simp [SetPatchesCompress, hg, hlen]

theorem setPatches_cons_compress (c : Codec) (hgc : GoodCodec c) (acc : List (List Nat))
    (p : ConfigPatch) (rest : List ConfigPatch) (comp : List Nat)
    (hcd : p.compressedData = []) (hemp : IsEmptyPatch c p = false)
    (hc : c.compress p.data = Except.ok comp) :
    SetPatchesCompress c acc (p :: rest) = SetPatchesCompress c (acc ++ [comp]) rest := by
  have hg : getCompressed c p =
      Except.ok (some comp, { p with data := "", compressedData := comp }) := by
    simp [getCompressed, hemp, hcd, getUncompressedData, setUncompressedData, hc]
  have hemp2 := isEmpty_after_set c hgc p comp hcd hc hemp
  by_cases hlen : comp.length < 1024
  · simp [SetPatchesCompress, hg, hlen, hemp2]
  · simp [SetPatchesCompress, hg, hlen]

theorem setPatches_append (c : Codec) (ps1 : List ConfigPatch) :
    ∀ (acc acc1 : List (List Nat)) (ps2 : List ConfigPatch),
    SetPatchesCompress c acc ps1 = (acc1, none) →
    SetPatchesCompress c acc (ps1 ++ ps2) = SetPatchesCompress c acc1 ps2 := by
  induction ps1 with
  | nil =>
    intro acc acc1 ps2 h
    simp [SetPatchesCompress] at h
    simp [h]
  | cons p rest ih =>
    intro acc acc1 ps2 h
    simp only [List.cons_append, SetPatchesCompress] at h ⊢
    cases hg : getCompressed c p with
    | error e =>
      rw [hg] at h
      dsimp only at h
      exact absurd h (by simp)
    | ok pr =>
      obtain ⟨copt, p2⟩ := pr
      cases copt with
      | none =>
        rw [hg] at h
        dsimp only at h ⊢
        exact ih _ _ _ h
      | some compr =>
        rw [hg] at h
        dsimp only at h ⊢
        by_cases hlen : compr.length < 1024
        · rw [if_pos hlen] at h ⊢
          by_cases hemp : IsEmptyPatch c p2 = true
          · rw [if_pos hemp] at h ⊢
            exact ih _ _ _ h
          · rw [if_neg hemp] at h ⊢
            exact ih _ _ _ h
        · rw [if_neg hlen] at h ⊢
          exact ih _ _ _ h

theorem setPatches_prefix (c : Codec) (ps : List ConfigPatch) :
    ∀ acc : List (List Nat), acc <+: (SetPatchesCompress c acc ps).1 := by
  induction ps with
  | nil =>
    intro acc
    simp [SetPatchesCompress]
  | cons p rest ih =>
    intro acc
    simp only [SetPatchesCompress]
    cases hg : getCompressed c p with
    | error e => simp
    | ok pr =>
      obtain ⟨copt, p2⟩ := pr
      cases copt with
      | none => exact ih acc
      | some compr =>
        dsimp only
        by_cases hlen : compr.length < 1024
        · rw [if_pos hlen]
          by_cases hemp : IsEmptyPatch c p2 = true
          · rw [if_pos hemp]
            exact ih acc
          · rw [if_neg hemp]
            exact (List.prefix_append acc [compr]).trans (ih _)
        · rw [if_neg hlen]
          exact (List.prefix_append acc [compr]).trans (ih _)

/-- C3: SetPatchesCompress never appends a patch whose uncompressed
content is empty or whitespace-only, regardless of byte size; on a run
that reports no error (the codec round-tripping, as gzip does) it appends
exactly the compressed bytes of each non-empty patch, once, in input
order; and a patch already carrying a non-empty compressed representation
has exactly that stored representation appended, never a recompression. -/
theorem SetPatchesCompress_spec (c : Codec) (hgc : GoodCodec c) :
    (∀ acc p rest s, getUncompressedData c p = Except.ok s → trimSpace s = [] →
      SetPatchesCompress c acc (p :: rest) = SetPatchesCompress c acc rest) ∧
    (∀ ps acc, (SetPatchesCompress c acc ps).2 = none →
      (SetPatchesCompress c acc ps).1 = acc ++ ps.filterMap (patchOutput c)) ∧
    (∀ acc p rest, p.compressedData ≠ [] → IsEmptyPatch c p = false →
      SetPatchesCompress c acc (p :: rest) = SetPatchesCompress c (acc ++ [p.compressedData]) rest) := by
  refine ⟨?_, ?_, fun acc p rest hcd hemp => setPatches_cons_reuse c acc p rest hcd hemp⟩
  · intro acc p rest s hget htrim
    have hemp : IsEmptyPatch c p = true := by
      unfold IsEmptyPatch
      rw [hget]
      simp [htrim]
    exact setPatches_cons_skip c acc p rest hemp
  · intro ps
    induction ps with
    | nil =>
      intro acc _
      simp [SetPatchesCompress]
    | cons p rest ih =>
      intro acc hok
      by_cases hemp : IsEmptyPatch c p = true
      · rw [setPatches_cons_skip c acc p rest hemp] at hok ⊢
        rw [ih _ hok]
        simp [patchOutput, hemp]
      · have hemp' : IsEmptyPatch c p = false := Bool.eq_false_iff.mpr hemp
        by_cases hcd : p.compressedData = []
        · cases hc : c.compress p.data with
          | error e =>
            have hg : getCompressed c p = Except.error e := by
              simp [getCompressed, hemp', hcd, getUncompressedData, setUncompressedData, hc]
            rw [setPatches_cons_error c acc p rest e hg] at hok
            simp at hok
          | ok comp =>
            rw [setPatches_cons_compress c hgc acc p rest comp hcd hemp' hc] at hok ⊢
            rw [ih _ hok]
            simp [patchOutput, hemp', hcd, hc, List.append_assoc]
        · rw [setPatches_cons_reuse c acc p rest hcd hemp'] at hok ⊢
          rw [ih _ hok]
          simp [patchOutput, hemp', hcd, List.append_assoc]

/-- C8: if compressing or decompressing a patch fails, SetPatchesCompress
returns that error to the caller, and the patches appended before the
failing patch remain in the collection — no rollback of partial output. -/
theorem SetPatchesCompress_error_no_rollback (c : Codec) (acc acc1 : List (List Nat))
    (ps1 ps2 : List ConfigPatch) (p : ConfigPatch) (e : String)
    (h1 : SetPatchesCompress c acc ps1 = (acc1, none))
    (he : getCompressed c p = Except.error e) :
    SetPatchesCompress c acc (ps1 ++ p :: ps2) = (acc1, some e) ∧ acc <+: acc1 := by
  constructor
  · rw [setPatches_append c ps1 acc acc1 _ h1]
    exact setPatches_cons_error c acc1 p ps2 e he
  · have hpre := setPatches_prefix c ps1 acc
    rw [h1] at hpre
    exact hpre

/-- A concrete codec for witnesses: the compressed form is a marker byte
followed by the character codes, decompression inverts it, and
compressing the content `fail` errors with `boom`. -/
def codecW : Codec :=
  ⟨fun s => if s = "fail" then Except.error "boom" else Except.ok (77 :: strBytes s),
   fun b =>
     match b with
     | 77 :: rest => Except.ok (String.mk (rest.map Char.ofNat))
     | _ => Except.error "bad"⟩

theorem codecW_good : GoodCodec codecW := by
  intro s comp hc
  by_cases hs : s = "fail"
  · rw [hs] at hc
    simp [codecW] at hc
  · rw [show codecW.compress s = Except.ok (77 :: strBytes s) from by simp [codecW, hs]] at hc
    injection hc with h2
    subst h2
    constructor
    · have hmk : String.mk s.data = s := by cases s; rfl
      simp [codecW, strBytes, List.map_map, Function.comp_def, Char.ofNat_toNat, hmk]
    · simp

/-- A patch with a stored non-empty compressed representation. -/
def patchStored : ConfigPatch := ⟨"ignored", [9, 9, 9]⟩

/-- The whitespace-only patch of the spec example. -/
def patchWs : ConfigPatch := ⟨"   \n\t  ", []⟩

/-- C3 witness: the stored representation of `patchStored` is appended
as-is, and the whitespace-only patch of the spec example is skipped. -/
theorem SetPatchesCompress_spec_witness :
    SetPatchesCompress codecW [] [patchStored] = SetPatchesCompress codecW [[9, 9, 9]] [] ∧
    SetPatchesCompress codecW [] [patchWs] = SetPatchesCompress codecW [] [] :=
  ⟨(SetPatchesCompress_spec codecW codecW_good).2.2 [] patchStored [] (by decide) (by decide),
   (SetPatchesCompress_spec codecW codecW_good).1 [] patchWs [] "   \n\t  " rfl (by decide)⟩

/-- A patch that compresses successfully. -/
def patchOk : ConfigPatch := ⟨"keep me", []⟩

/-- A patch whose compression fails under the witness codec. -/
def patchBad : ConfigPatch := ⟨"fail", []⟩

/-- C8 witness: compressing `patchBad` fails with `boom`; the run returns
that error and keeps the bytes already appended for `patchOk`. -/
theorem SetPatchesCompress_error_no_rollback_witness :
    SetPatchesCompress codecW [] ([patchOk] ++ patchBad :: []) =
      ([77 :: strBytes "keep me"], some "boom") ∧
    ([] : List (List Nat)) <+: [77 :: strBytes "keep me"] :=
  SetPatchesCompress_error_no_rollback codecW [] [77 :: strBytes "keep me"] [patchOk] [] patchBad
    "boom" (by decide) rfl
